import Mathlib

/-!
Shallow embedding of the mergebro pull-request merge agent (Rust), covering
the data model in src/github/models.rs, the pipeline steps in
src/processing/steps.rs, the merger in src/processing/merge.rs, the director
loop in src/processing/director.rs and the error taxonomy in src/client.rs
and src/processing/error.rs.  Asynchronous I/O is modelled by passing the
result each network call would produce as an explicit argument, and the
requests a function issues are reported in an explicit trace so that
claims about which calls happen (and how often) can be stated.
-/

namespace Mergebro

/-- src/github/models.rs: enum MergeableState. -/
inductive MergeableState
  | behind
  | clean
  | blocked
  | unstable
  | dirty
  | unknown
deriving DecidableEq, Repr

/-- src/github/models.rs: enum PullRequestState (the variant Open is written
openPR since open is a Lean keyword). -/
inductive PullRequestState
  | openPR
  | closed
  | unknown
deriving DecidableEq, Repr

/-- src/github/models.rs: enum ReviewState. -/
inductive ReviewState
  | approved
  | changesRequested
  | commented
  | dismissed
  | pending
deriving DecidableEq, Repr

/-- src/github/models.rs: struct User. -/
structure User where
  login : String
deriving DecidableEq, Repr

/-- src/github/models.rs: struct PullRequestReview.  The chrono timestamp is
modelled as an integer; compute_approvals never reads it (submission order is
the list order). -/
structure PullRequestReview where
  user : User
  state : ReviewState
  submitted_at : Int
deriving DecidableEq, Repr

/-- src/github/models.rs: struct Repository. -/
structure Repository where
  name : String
  owner : User
deriving DecidableEq, Repr

/-- src/github/models.rs: struct Branch. -/
structure Branch where
  sha : String
  name : String
  user : User
  repo : Repository
deriving DecidableEq, Repr

/-- src/github/models.rs: struct PullRequest (the _links field is modelled by
the statuses link it carries). -/
structure PullRequest where
  mergeable_state : MergeableState
  statuses_link : String
  creator : User
  state : PullRequestState
  title : String
  head : Branch
  base : Branch
  merged : Bool
  draft : Bool
  body : Option String
deriving DecidableEq, Repr

/-- src/github/models.rs: enum StatusState. -/
inductive StatusState
  | success
  | failure
  | pending
  | unknown
deriving DecidableEq, Repr

/-- src/github/models.rs: struct Status (an externally reported commit
status). -/
structure Status where
  target_url : String
  state : StatusState
  created_at : Int
  context : String
deriving DecidableEq, Repr

/-- src/github/models.rs: enum WorfklowRunStatus (typo kept from the
source). -/
inductive WorfklowRunStatus
  | completed
  | queued
  | inProgress
  | unknown
deriving DecidableEq, Repr

/-- src/github/models.rs: enum WorkflowRunConclusion. -/
inductive WorkflowRunConclusion
  | success
  | failure
  | unknown
deriving DecidableEq, Repr

/-- src/github/models.rs: struct WorkflowRun (no creation timestamp exists on
this record; the GitHub API returns runs newest first and the code relies on
that order). -/
structure WorkflowRun where
  id : Nat
  workflow_id : Nat
  name : String
  head_sha : String
  status : WorfklowRunStatus
  conclusion : Option WorkflowRunConclusion
deriving DecidableEq, Repr

/-- src/github/models.rs: struct PullRequestIdentifier. -/
structure PullRequestIdentifier where
  owner : String
  repo : String
  pull_number : Nat
deriving DecidableEq, Repr

/-- reqwest::Url as used by the steps: the steps only parse and forward these
values, so the parsed representation is kept abstract as the raw string. -/
structure Url where
  raw : String
deriving DecidableEq, Repr

/-- src/client.rs: enum Error (the reqwest transport error payload is
irrelevant to the processing logic and is dropped; HTTP status codes are
naturals). -/
inductive ClientError
  | rateLimitRetries
  | http (status : Nat)
  | reqwest
deriving DecidableEq, Repr

/-- src/client.rs: Error::not_found. -/
def ClientError.not_found : ClientError → Bool
  | .http 404 => true
  | _ => false

/-- src/client.rs: Error::unprocessable_entity. -/
def ClientError.unprocessable_entity : ClientError → Bool
  | .http 422 => true
  | _ => false

/-- src/client.rs: Error::method_not_allowed. -/
def ClientError.method_not_allowed : ClientError → Bool
  | .http 405 => true
  | _ => false

/-- src/client.rs: Error::conflict. -/
def ClientError.conflict : ClientError → Bool
  | .http 409 => true
  | _ => false

/-- src/processing/error.rs: enum Error. -/
inductive Error
  | client (e : ClientError)
  | unsupportedPullRequestState (msg : String)
  | generic (msg : String)
deriving DecidableEq, Repr

/-- src/processing/steps.rs: enum StepStatus as defined in steps.rs. -/
inductive StepStatus
  | passed
  | waiting
deriving DecidableEq, Repr

/-- src/processing/runner.rs: enum WorkflowStatus. -/
inductive WorkflowStatus
  | success
  | triggered
deriving DecidableEq, Repr

/-! ## CheckReviewsStep (src/processing/steps.rs lines 90-102) -/

/-- The loop body state of CheckReviewsStep::compute_approvals: the HashSet
of logins currently counted as approving, folded over the review list in
submission order. -/
def compute_approvals_aux (users : Finset String) : List PullRequestReview → Finset String
  | [] => users
  | r :: rest =>
    match r.state with
    | .approved => compute_approvals_aux (insert r.user.login users) rest
    | .changesRequested => compute_approvals_aux (users.erase r.user.login) rest
    | .dismissed => compute_approvals_aux (users.erase r.user.login) rest
    | _ => compute_approvals_aux users rest

/-- src/processing/steps.rs: CheckReviewsStep::compute_approvals. -/
def compute_approvals (reviews : List PullRequestReview) : Nat :=
  (compute_approvals_aux ∅ reviews).card

/-- Spec-side definition (sections 3 and 8 of the spec): the last review
state a user submitted among the states that affect approval accounting
(Approved, ChangesRequested, Dismissed); Commented and Pending reviews are
ignored, per the spec design note that approval is revoked only by
ChangesRequested or Dismissed. -/
def lastEffectiveState : List PullRequestReview → String → Option ReviewState
  | [], _ => none
  | r :: rest, u =>
    match lastEffectiveState rest u with
    | some s => some s
    | none =>
      if r.user.login = u ∧
          (r.state = .approved ∨ r.state = .changesRequested ∨ r.state = .dismissed)
      then some r.state
      else none

/-- Spec-side definition: the number of distinct reviewers whose last
effective review state is Approved. -/
def specApprovals (reviews : List PullRequestReview) : Nat :=
  ((reviews.map (fun r => r.user.login)).toFinset.filter
    (fun u => lastEffectiveState reviews u = some .approved)).card

/-! ## CheckBehindMaster (src/processing/steps.rs lines 150-166) -/

/-- src/processing/steps.rs: CheckBehindMaster::execute.  The result the
github.update_branch call would produce is passed explicitly; the second
component of the result counts how many update-branch requests were
issued. -/
def check_behind_master_execute (updateResult : Except ClientError Unit)
    (pull_request : PullRequest) : Except Error StepStatus × Nat :=
  if pull_request.mergeable_state ≠ .behind then (.ok .passed, 0)
  else
    match updateResult with
    | .ok _ => (.ok .waiting, 1)
    | .error e =>
      if e.unprocessable_entity then (.ok .waiting, 1)
      else (.error (.client e), 1)

/-- Spec-side definition (spec section 4.4): the conflict/unprocessable-entity
classification of a client error, read over the predicates of src/client.rs
lines 100-120. -/
def conflictOrUnprocessable (e : ClientError) : Bool :=
  e.conflict || e.unprocessable_entity

/-! ## Deduplication by logical job identity

The Rust code collects records into a HashMap with entry(key).or_insert(v),
which keeps the first record of each key in stream order; the GitHub API
returns records newest first, so the first record per key is the most
recently created one. -/

/-- The loop state of the entry(key).or_insert(record) collection: the keys
already inserted.  A record whose key was already seen is skipped, otherwise
it is kept and its key becomes seen. -/
def dedupByKeyAux {α κ : Type} [DecidableEq κ] (key : α → κ) :
    List κ → List α → List α
  | _, [] => []
  | seen, x :: rest =>
    if key x ∈ seen then dedupByKeyAux key seen rest
    else x :: dedupByKeyAux key (key x :: seen) rest

/-- First-occurrence-per-key deduplication: the pure content of the
entry(key).or_insert(run) loops in CheckBuildFailed::fetch_action_runs and
CheckBuildFailed::fetch_status_summaries. -/
def dedupByKey {α κ : Type} [DecidableEq κ] (key : α → κ) (l : List α) : List α :=
  dedupByKeyAux key [] l

/-! ## CheckBuildFailed (src/processing/steps.rs lines 176-391) -/

/-- src/config.rs: struct StatusFailuresConfig. -/
structure StatusFailuresConfig where
  max_failures : Nat
deriving DecidableEq, Repr

/-- The HashMap String -> u32 of per-status failure counters, modelled as an
association list whose insert updates in place or appends. -/
def FailureMap := List (String × Nat)
deriving DecidableEq, Repr

/-- Lookup in the failure-counter map. -/
def FailureMap.lookup (m : FailureMap) (k : String) : Option Nat :=
  ((m : List (String × Nat)).find? fun p => decide (p.1 = k)).map Prod.snd

/-- Insert (update or append) in the failure-counter map. -/
def FailureMap.insert : FailureMap → String → Nat → FailureMap
  | [], k, v => [(k, v)]
  | p :: rest, k, v =>
    if p.1 = k then (k, v) :: rest else p :: FailureMap.insert rest k v

/-- src/processing/steps.rs: struct StatusSummary. -/
structure StatusSummary where
  url : Url
  name : String
deriving DecidableEq, Repr

/-- src/processing/steps.rs: struct StatusSummaries. -/
structure StatusSummaries where
  pending : List StatusSummary
  failed : List StatusSummary
deriving DecidableEq, Repr

/-- src/processing/steps.rs: struct SplitActionRuns. -/
structure SplitActionRuns where
  pending : List WorkflowRun
  failed : List WorkflowRun
deriving DecidableEq, Repr

/-- src/processing/steps.rs: CheckBuildFailed::parse_status_url.  URL parsing
is the reqwest library; it is kept abstract as a parameter parseUrl so every
theorem holds for any parser behaviour. -/
def parse_status_url (parseUrl : String → Option Url) (url : String) : Except Error Url :=
  match parseUrl url with
  | some u => .ok u
  | none => .error (.generic ("invalid status target URL: " ++ url))

/-- The summary-building loop of CheckBuildFailed::fetch_status_summaries
over the already deduplicated statuses: parse each target URL (failure
aborts), then partition into failed and pending by status state. -/
def summarize_statuses (parseUrl : String → Option Url) :
    List Status → Except Error StatusSummaries
  | [] => .ok ⟨[], []⟩
  | st :: rest =>
    match parse_status_url parseUrl st.target_url with
    | .error e => .error e
    | .ok url =>
      match summarize_statuses parseUrl rest with
      | .error e => .error e
      | .ok acc =>
        match st.state with
        | .failure => .ok ⟨acc.pending, ⟨url, st.context⟩ :: acc.failed⟩
        | .pending => .ok ⟨⟨url, st.context⟩ :: acc.pending, acc.failed⟩
        | _ => .ok acc

/-- src/processing/steps.rs: CheckBuildFailed::fetch_status_summaries, as a
pure function of the list the github.pull_request_statuses call returned:
dedup by status context (first record per context in stream order), then
build the summaries. -/
def fetch_status_summaries (parseUrl : String → Option Url)
    (statuses : List Status) : Except Error StatusSummaries :=
  summarize_statuses parseUrl (dedupByKey (fun st => st.context) statuses)

/-- src/processing/steps.rs: CheckBuildFailed::fetch_action_runs, as a pure
function of the workflow_runs list the github.action_runs call returned:
drop runs for other head SHAs, dedup by workflow id, partition by
conclusion. -/
def fetch_action_runs (pull_request : PullRequest)
    (workflow_runs : List WorkflowRun) : SplitActionRuns :=
  let deduped := dedupByKey (fun r => r.workflow_id)
    (workflow_runs.filter fun r => decide (r.head_sha = pull_request.head.sha))
  { pending := deduped.filter fun r => decide (r.conclusion = none)
    failed := deduped.filter fun r => decide (r.conclusion = some .failure) }

/-- src/processing/steps.rs: CheckBuildFailed::check_max_failures.  Iterates
the failed statuses; for each with a configured threshold the counter is
incremented and compared; reaching the threshold stops with the error (the
increment is kept, matching the Rust map mutation). -/
def check_max_failures (cfg : String → Option StatusFailuresConfig) :
    List StatusSummary → FailureMap → FailureMap × Option Error
  | [], m => (m, none)
  | st :: rest, m =>
    match cfg st.name with
    | none => check_max_failures cfg rest m
    | some c =>
      let failures := (m.lookup st.name).getD 0 + 1
      let m2 := m.insert st.name failures
      if c.max_failures ≤ failures then
        (m2, some (.generic ("status check \x27" ++ st.name ++ "\x27 reached "
          ++ toString failures ++ " failures")))
      else check_max_failures cfg rest m2

/-- The workflow-runner loop of CheckBuildFailed::process_failed_statuses:
each runner is called in order with the failed job URLs; the first runner
error aborts; otherwise the Triggered results are counted.  The second
component counts how many runners were invoked. -/
def run_workflow_runners :
    List (List Url → Except Error WorkflowStatus) → List Url →
    Except Error Nat × Nat
  | [], _ => (.ok 0, 0)
  | r :: rest, urls =>
    match r urls with
    | .error e => (.error e, 1)
    | .ok s =>
      match run_workflow_runners rest urls with
      | (.error e, n) => (.error e, n + 1)
      | (.ok total, n) =>
        (.ok (if s = .triggered then total + 1 else total), n + 1)

/-- src/processing/steps.rs: CheckBuildFailed::process_failed_statuses.
Checks the max-failure thresholds first; only if no threshold is reached are
the workflow runners handed the failed job URLs.  Returns the updated
failure-counter map, the number of runner invocations, and the error if
any. -/
def process_failed_statuses (cfg : String → Option StatusFailuresConfig)
    (runners : List (List Url → Except Error WorkflowStatus))
    (statuses : List StatusSummary) (m : FailureMap) :
    FailureMap × Nat × Option Error :=
  match check_max_failures cfg statuses m with
  | (m2, some e) => (m2, 0, some e)
  | (m2, none) =>
    let failed_job_urls := statuses.map fun s => s.url
    match run_workflow_runners runners failed_job_urls with
    | (.error e, n) => (m2, n, some e)
    | (.ok total_triggered, n) =>
      if total_triggered = 0 then
        (m2, n, some (.generic "failed jobs belong to unknown external services"))
      else (m2, n, none)

/-- src/processing/steps.rs: CheckBuildFailed::check_statuses, as a pure
function of the fetched status list and the failure-counter map.  Returns
the step outcome, the updated map, and the number of runner invocations. -/
def check_statuses (parseUrl : String → Option Url)
    (cfg : String → Option StatusFailuresConfig)
    (runners : List (List Url → Except Error WorkflowStatus))
    (statuses : List Status) (m : FailureMap) :
    Except Error StepStatus × FailureMap × Nat :=
  match fetch_status_summaries parseUrl statuses with
  | .error e => (.error e, m, 0)
  | .ok summaries =>
    match summaries.pending.length with
    | 0 =>
      if summaries.failed.isEmpty then (.ok .passed, m, 0)
      else
        match process_failed_statuses cfg runners summaries.failed m with
        | (m2, n, some e) => (.error e, m2, n)
        | (m2, n, none) => (.ok .waiting, m2, n)
    | _ + 1 => (.ok .waiting, m, 0)

/-- src/processing/steps.rs: CheckBuildFailed::process_failed_actions: rerun
each failed workflow via github.rerun_workflow (result supplied by the rerun
oracle); the first error aborts.  The second component lists the run ids for
which a rerun request was issued. -/
def process_failed_actions (rerun : Nat → Except ClientError Unit) :
    List WorkflowRun → Option Error × List Nat
  | [] => (none, [])
  | run :: rest =>
    match rerun run.id with
    | .error e => (some (.client e), [run.id])
    | .ok _ =>
      match process_failed_actions rerun rest with
      | (res, ids) => (res, run.id :: ids)

/-- src/processing/steps.rs: CheckBuildFailed::check_actions, as a pure
function of the fetched workflow-run list.  Returns the step outcome and the
rerun requests issued. -/
def check_actions (rerun : Nat → Except ClientError Unit)
    (pull_request : PullRequest) (workflow_runs : List WorkflowRun) :
    Except Error StepStatus × List Nat :=
  let split_runs := fetch_action_runs pull_request workflow_runs
  match split_runs.pending.length with
  | 0 =>
    if split_runs.failed.isEmpty then (.ok .passed, [])
    else
      match process_failed_actions rerun split_runs.failed with
      | (some e, ids) => (.error e, ids)
      | (none, ids) => (.ok .waiting, ids)
  | _ + 1 => (.ok .waiting, [])

/-- The mutable fields of struct CheckBuildFailed that persist across polls
(src/processing/steps.rs lines 176-182): the last observed head SHA and the
per-status failure counters. -/
structure CbfState where
  last_head_hash : Option String
  status_failures : FailureMap
deriving DecidableEq, Repr

/-- The network requests one CheckBuildFailed::execute call issues:
how many pull_request_statuses fetches, how many action_runs fetches, how
many workflow-runner invocations, and the rerun_workflow run ids. -/
structure CbfTrace where
  statusFetches : Nat
  actionFetches : Nat
  runnerInvocations : Nat
  rerunCalls : List Nat
deriving DecidableEq, Repr

/-- The empty trace: no network request issued. -/
def CbfTrace.zero : CbfTrace := ⟨0, 0, 0, []⟩

/-- The oracle for the network calls CheckBuildFailed::execute makes: the
results github.pull_request_statuses, github.action_runs and
github.rerun_workflow would return, the configured workflow runners, and the
URL parser. -/
structure CbfEnv where
  statuses : Except ClientError (List Status)
  actionRuns : Except ClientError (List WorkflowRun)
  rerun : Nat → Except ClientError Unit
  runners : List (List Url → Except Error WorkflowStatus)
  parseUrl : String → Option Url

/-- src/processing/steps.rs lines 371-377 (inside CheckBuildFailed::execute):
if the head SHA differs from the last observed one, the failure counters are
cleared (only when a SHA had been observed before) and the new SHA is
recorded. -/
def observe_head_sha (st : CbfState) (sha : String) : CbfState :=
  if st.last_head_hash = some sha then st
  else
    { last_head_hash := some sha
      status_failures := if st.last_head_hash.isSome then [] else st.status_failures }

/-- src/processing/steps.rs lines 378-390: the part of
CheckBuildFailed::execute after the early return and the head-SHA
observation: run the statuses sub-check, then the actions sub-check, then
combine. -/
def cbf_execute_core (env : CbfEnv) (cfg : String → Option StatusFailuresConfig)
    (pull_request : PullRequest) (st : CbfState) :
    Except Error StepStatus × CbfState × CbfTrace :=
  match env.statuses with
  | .error e => (.error (.client e), st, ⟨1, 0, 0, []⟩)
  | .ok statusList =>
    match check_statuses env.parseUrl cfg env.runners statusList st.status_failures with
    | (sres, m2, inv) =>
      let st2 : CbfState := { st with status_failures := m2 }
      match sres with
      | .error e => (.error e, st2, ⟨1, 0, inv, []⟩)
      | .ok statuses_result =>
        match env.actionRuns with
        | .error e => (.error (.client e), st2, ⟨1, 1, inv, []⟩)
        | .ok runsList =>
          match check_actions env.rerun pull_request runsList with
          | (.error e, reruns) => (.error e, st2, ⟨1, 1, inv, reruns⟩)
          | (.ok actions_result, reruns) =>
            if (statuses_result, actions_result) = (StepStatus.passed, StepStatus.passed)
                ∧ pull_request.mergeable_state = .blocked then
              (.error (.generic "pull request is blocked for unknown reasons"),
                st2, ⟨1, 1, inv, reruns⟩)
            else (.ok .waiting, st2, ⟨1, 1, inv, reruns⟩)

/-- src/processing/steps.rs lines 366-391: CheckBuildFailed::execute.  A
non-Blocked mergeable state returns Passed immediately with no state change
and no network request; otherwise the head SHA is observed and the
sub-checks run. -/
def cbf_execute (env : CbfEnv) (cfg : String → Option StatusFailuresConfig)
    (pull_request : PullRequest) (st : CbfState) :
    Except Error StepStatus × CbfState × CbfTrace :=
  if pull_request.mergeable_state ≠ .blocked then (.ok .passed, st, CbfTrace.zero)
  else cbf_execute_core env cfg pull_request (observe_head_sha st pull_request.head.sha)

/-- Spec-side definition (spec section 4.5): membership in the platform
blocked/unstable class of mergeable states, as the claim words it. -/
def inBlockedUnstableClass (s : MergeableState) : Bool :=
  s = .blocked ∨ s = .unstable

/-! ## DefaultPullRequestMerger (src/processing/merge.rs) -/

/-- src/github/models.rs: enum MergeMethod. -/
inductive MergeMethod
  | merge
  | squash
  | rebase
deriving DecidableEq, Repr

/-- src/github/client.rs: struct MergeRequestBody. -/
structure MergeRequestBody where
  sha : String
  commit_title : String
  commit_message : Option String
  merge_method : MergeMethod
deriving DecidableEq, Repr

/-- Vec::swap of two positions, as used on the merge-method list (both
indices are in bounds whenever the Rust code calls it). -/
def listSwap {α : Type} (l : List α) (i j : Nat) : List α :=
  match l.get? i, l.get? j with
  | some a, some b => (l.set i b).set j a
  | _, _ => l

/-- src/processing/merge.rs: DefaultPullRequestMerger::build_merge_methods:
start from [Squash, Merge, Rebase], find the configured default, swap it to
the front. -/
def build_merge_methods (default_method : MergeMethod) : List MergeMethod :=
  let methods := [MergeMethod.squash, MergeMethod.merge, MergeMethod.rebase]
  let default_index := methods.findIdx fun m => m == default_method
  listSwap methods default_index 0

/-- src/processing/merge.rs: DefaultPullRequestMerger::build_merge_message:
only the squash strategy carries the pull-request body as commit message. -/
def build_merge_message (pull_request : PullRequest) (method : MergeMethod) :
    Option String :=
  if method = .squash then pull_request.body else none

/-- src/processing/merge.rs: DefaultPullRequestMerger::merge_with_method:
build the merge request body and submit it (the github.merge_pull_request
result is supplied by the submit oracle). -/
def merge_with_method (submit : MergeRequestBody → Except ClientError Unit)
    (pull_request : PullRequest) (method : MergeMethod) : Except ClientError Unit :=
  submit
    { sha := pull_request.head.sha
      commit_title := pull_request.title
      commit_message := build_merge_message pull_request method
      merge_method := method }

/-- The strategy loop of DefaultPullRequestMerger::merge: attempt each
method in order; success stops, a method-not-allowed failure falls through
to the next method, any other failure propagates; exhaustion is the
"No merge method allowed" error.  The second component lists the methods
actually attempted, in order. -/
def merger_merge (submit : MergeRequestBody → Except ClientError Unit)
    (pull_request : PullRequest) :
    List MergeMethod → Except Error Unit × List MergeMethod
  | [] => (.error (.generic "No merge method allowed"), [])
  | m :: rest =>
    match merge_with_method submit pull_request m with
    | .ok _ => (.ok (), [m])
    | .error e =>
      if e.method_not_allowed then
        match merger_merge submit pull_request rest with
        | (res, ms) => (res, m :: ms)
      else (.error (.client e), [m])

/-- src/processing/merge.rs: DefaultPullRequestMerger::merge for a merger
built by DefaultPullRequestMerger::new from the configured default
method. -/
def default_merger_merge (submit : MergeRequestBody → Except ClientError Unit)
    (pull_request : PullRequest) (default_method : MergeMethod) :
    Except Error Unit × List MergeMethod :=
  merger_merge submit pull_request (build_merge_methods default_method)

/-! ## Director (src/processing/director.rs) -/

/-- Modelled from the spec: the per-cycle Context the director builds from
the fetched snapshot and passes to every step (director.rs constructs
Context::new(identifier, info); the Context type itself is not among the
provided sources).  Per spec section 4.1 it pairs the pull-request
identifier with the freshly fetched snapshot. -/
structure Context where
  identifier : PullRequestIdentifier
  pull_request : PullRequest

/-- The step outcome enum as consumed by Director::run in director.rs, which
distinguishes Passed, Waiting and CannotProceed (steps.rs in this snapshot
declares only the first two; director.rs matches all three). -/
inductive DirectorStepStatus
  | passed
  | waiting
  | cannotProceed (reason : String)
deriving DecidableEq, Repr

/-- src/processing/director.rs: enum DirectorState. -/
inductive DirectorState
  | done
  | pending
deriving DecidableEq, Repr

/-- The step loop of Director::run: execute each step on the context in
declared order; an error stops, CannotProceed short-circuits to Done,
Waiting short-circuits to Pending, Passed continues.  Returns the
short-circuit outcome (none means all steps passed) and how many steps were
executed. -/
def run_director_steps (ctx : Context) :
    List (Context → Except Error DirectorStepStatus) →
    Except Error (Option DirectorState) × Nat
  | [] => (.ok none, 0)
  | step :: rest =>
    match step ctx with
    | .error e => (.error e, 1)
    | .ok (.cannotProceed _) => (.ok (some .done), 1)
    | .ok .waiting => (.ok (some .pending), 1)
    | .ok .passed =>
      match run_director_steps ctx rest with
      | (res, k) => (res, k + 1)

deriving instance DecidableEq for Except

/-- The outcome of one Director::run invocation: the returned value, how
many steps executed, and how many times the merger was invoked. -/
structure DirectorRunOutcome where
  result : Except Error DirectorState
  stepsExecuted : Nat
  mergerInvocations : Nat
deriving DecidableEq, Repr

/-- src/processing/director.rs lines 54-76: Director::run.  First the fresh
pull-request snapshot is fetched (build_context; its result is the fetch
oracle); a fetch error propagates before any step runs.  Then the steps run
in declared order, and only if all passed is the merger invoked, its error
propagating and its success yielding Done. -/
def director_run (fetch : Except Error Context)
    (steps : List (Context → Except Error DirectorStepStatus))
    (merge : Context → Except Error Unit) : DirectorRunOutcome :=
  match fetch with
  | .error e => ⟨.error e, 0, 0⟩
  | .ok ctx =>
    match run_director_steps ctx steps with
    | (.error e, k) => ⟨.error e, k, 0⟩
    | (.ok (some s), k) => ⟨.ok s, k, 0⟩
    | (.ok none, k) =>
      match merge ctx with
      | .error e => ⟨.error e, k, 1⟩
      | .ok _ => ⟨.ok .done, k, 1⟩

/-- A concrete blocked pull request used by witness instantiations, built
like the fixtures of the Rust test module (head SHA mysha). -/
def demoPrBlocked : PullRequest :=
  { mergeable_state := .blocked
    statuses_link := "https://api.github.com/statuses/mysha"
    creator := ⟨"creator"⟩
    state := .openPR
    title := "some pull request"
    head := ⟨"mysha", "feature", ⟨"creator"⟩, ⟨"repo", ⟨"owner"⟩⟩⟩
    base := ⟨"basesha", "main", ⟨"creator"⟩, ⟨"repo", ⟨"owner"⟩⟩⟩
    merged := false
    draft := false
    body := none }

/-- The pull request of the max-failures poll sequence: blocked, with the
given head SHA, unchanged across polls. -/
def c3Pr (sha : String) : PullRequest :=
  { demoPrBlocked with head := { demoPrBlocked.head with sha := sha } }

/-- The environment of the max-failures poll sequence: every poll fetches
one failing external status named n (no pending statuses), no GitHub
Actions runs, and one workflow runner that re-triggers the failed job. -/
def c3Env (n url : String) : CbfEnv :=
  { statuses := .ok [⟨url, .failure, 10, n⟩]
    actionRuns := .ok []
    rerun := fun _ => .ok ()
    runners := [fun _ => .ok .triggered]
    parseUrl := fun s => some ⟨s⟩ }

/-- Configuration with max_failures = 3 for the status named n and no
threshold for any other status. -/
def c3Cfg (n : String) : String → Option StatusFailuresConfig :=
  fun s => if s = n then some ⟨3⟩ else none

/-- The CheckBuildFailed step state before poll k+1 of the max-failures
sequence (state 0 is the freshly constructed step). -/
def c3State (n sha url : String) : Nat → CbfState
  | 0 => ⟨none, []⟩
  | k + 1 => (cbf_execute (c3Env n url) (c3Cfg n) (c3Pr sha) (c3State n sha url k)).2.1

/-- The outcome of poll k (numbered from 1) of the max-failures sequence. -/
def c3Poll (n sha url : String) (k : Nat) :
    Except Error StepStatus × CbfState × CbfTrace :=
  cbf_execute (c3Env n url) (c3Cfg n) (c3Pr sha) (c3State n sha url (k - 1))

/-- DupExt key seen l l2 holds when l2 is l with extra records inserted,
each inserted record carrying a key that already occurred strictly earlier
in the list (or among the keys in seen).  With seen = [] this captures
"the fetched list with additional duplicate records per logical job
identity, each appearing after (i.e. created before, in the newest-first
API order) a record of the same identity". -/
inductive DupExt {α κ : Type} (key : α → κ) : List κ → List α → List α → Prop
  | nil (seen : List κ) : DupExt key seen [] []
  | keep (seen : List κ) (x : α) (l l2 : List α) :
      DupExt key (key x :: seen) l l2 → DupExt key seen (x :: l) (x :: l2)
  | dup (seen : List κ) (x : α) (l l2 : List α) :
      key x ∈ seen → DupExt key seen l l2 → DupExt key seen l (x :: l2)

/-! ## Theorems: C1 -/

/-- Characterisation of the approving-users set built by the
compute_approvals fold: a user is in the result exactly when the last
effective review state of that user in the processed list is Approved, or
the user was already in the accumulator and submitted no effective review in
the list. -/
theorem mem_compute_approvals_aux (l : List PullRequestReview) :
    ∀ (s : Finset String) (u : String),
      u ∈ compute_approvals_aux s l ↔
        (lastEffectiveState l u = some .approved ∨
          (u ∈ s ∧ lastEffectiveState l u = none)) := by
  induction l with
  | nil => intro s u; simp [compute_approvals_aux, lastEffectiveState]
  | cons r rest ih =>
    intro s u
    obtain ⟨⟨login⟩, state, tstamp⟩ := r
    cases state <;>
      simp only [compute_approvals_aux, lastEffectiveState, ih] <;>
      rcases h : lastEffectiveState rest u with _ | t <;>
      by_cases hl : login = u <;>
      simp [h, hl, Finset.mem_insert, Finset.mem_erase, eq_comm] <;>
      aesop

/-- A user with an effective review state appears among the review logins. -/
theorem lastEffectiveState_mem (l : List PullRequestReview) (u : String) :
    ∀ t : ReviewState, lastEffectiveState l u = some t →
      u ∈ l.map fun r => r.user.login := by
  induction l with
  | nil => intro t h; simp [lastEffectiveState] at h
  | cons r rest ih =>
    intro t h
    rcases hr : lastEffectiveState rest u with _ | t2
    · simp only [lastEffectiveState, hr] at h
      by_cases hc : r.user.login = u ∧
          (r.state = .approved ∨ r.state = .changesRequested ∨ r.state = .dismissed)
      · simp [hc.1]
      · simp [hc] at h
    · exact List.mem_cons_of_mem _ (ih t2 hr)

/-- C1: for every list of reviews, the approval count computed by
CheckReviewsStep equals the number of distinct reviewers whose last
effective review state (by submission order, where only Approved,
ChangesRequested and Dismissed reviews affect accounting) is Approved: a
later ChangesRequested or Dismissed revokes an earlier Approved from the
same reviewer, and a later Approved after a ChangesRequested restores it. -/
theorem compute_approvals_counts_last_state_approvers
    (reviews : List PullRequestReview) :
    compute_approvals reviews = specApprovals reviews := by
  unfold compute_approvals specApprovals
  congr 1
  ext u
  simp only [mem_compute_approvals_aux, Finset.not_mem_empty, false_and, or_false,
    Finset.mem_filter, List.mem_toFinset]
  constructor
  · intro h
    exact ⟨lastEffectiveState_mem reviews u .approved h, h⟩

  · intro h
    exact h.2

/-- Concrete checks of C1 on the examples named by the claim:
[(bob, Approved), (bob, ChangesRequested)] yields 0 and
[(bob, Approved), (mike, Approved)] yields 2, on both the code function and
the spec counting. -/
theorem compute_approvals_examples :
    compute_approvals [⟨⟨"bob"⟩, .approved, 1⟩, ⟨⟨"bob"⟩, .changesRequested, 2⟩] = 0 ∧
    specApprovals [⟨⟨"bob"⟩, .approved, 1⟩, ⟨⟨"bob"⟩, .changesRequested, 2⟩] = 0 ∧
    compute_approvals [⟨⟨"bob"⟩, .approved, 1⟩, ⟨⟨"mike"⟩, .approved, 2⟩] = 2 ∧
    specApprovals [⟨⟨"bob"⟩, .approved, 1⟩, ⟨⟨"mike"⟩, .approved, 2⟩] = 2 := by
  refine ⟨?_, ?_, ?_, ?_⟩ <;> decide

/-! ## Theorems: C2 -/

/-- Deduplication only ever selects records of the input list. -/
theorem dedupByKeyAux_sublist {α κ : Type} [DecidableEq κ] (key : α → κ) :
    ∀ (l : List α) (seen : List κ), (dedupByKeyAux key seen l).Sublist l := by
  intro l
  induction l with
  | nil => intro seen; exact List.Sublist.refl _
  | cons x rest ih =>
    intro seen
    rw [dedupByKeyAux]
    by_cases hx : key x ∈ seen
    · rw [if_pos hx]
      exact (ih seen).cons x
    · rw [if_neg hx]
      exact (ih (key x :: seen)).cons_cons x

/-- The seen-key accumulator only matters through membership. -/
theorem dedupByKeyAux_congr_seen {α κ : Type} [DecidableEq κ] (key : α → κ) :
    ∀ (l : List α) (s1 s2 : List κ), (∀ a, a ∈ s1 ↔ a ∈ s2) →
      dedupByKeyAux key s1 l = dedupByKeyAux key s2 l := by
  intro l
  induction l with
  | nil => intro s1 s2 _; rfl
  | cons x rest ih =>
    intro s1 s2 hs
    rw [dedupByKeyAux, dedupByKeyAux]
    by_cases hx : key x ∈ s1
    · rw [if_pos hx, if_pos ((hs (key x)).mp hx)]
      exact ih s1 s2 hs
    · rw [if_neg hx, if_neg (fun hc => hx ((hs (key x)).mpr hc))]
      refine congrArg (List.cons x) (ih _ _ fun a => ?_)
      simp [hs a]

/-- A record selected by deduplication has a key that was not yet seen. -/
theorem key_not_seen_of_mem_dedupByKeyAux {α κ : Type} [DecidableEq κ]
    (key : α → κ) :
    ∀ (l : List α) (seen : List κ) (s : α), s ∈ dedupByKeyAux key seen l →
      key s ∉ seen := by
  intro l
  induction l with
  | nil => intro seen s hs; simp [dedupByKeyAux] at hs
  | cons x rest ih =>
    intro seen s hs
    rw [dedupByKeyAux] at hs
    by_cases hx : key x ∈ seen
    · rw [if_pos hx] at hs
      exact ih seen s hs
    · rw [if_neg hx] at hs
      rcases List.mem_cons.mp hs with hsx | hs2
      · exact hsx ▸ hx
      · intro hc
        exact ih (key x :: seen) s hs2 (List.mem_cons_of_mem _ hc)

/-- DupExt is invisible to the deduplication loop run from a matching seen
set: the inserted duplicates are all skipped. -/
theorem dupExt_dedupByKeyAux {α κ : Type} [DecidableEq κ] (key : α → κ)
    (seen : List κ) (l l2 : List α) (h : DupExt key seen l l2) :
    dedupByKeyAux key seen l2 = dedupByKeyAux key seen l := by
  induction h with
  | nil seen => rfl
  | keep seen x l l2 hd ih =>
    rw [dedupByKeyAux, dedupByKeyAux]
    by_cases hx : key x ∈ seen
    · rw [if_pos hx, if_pos hx]
      have hcong : ∀ m : List α,
          dedupByKeyAux key (key x :: seen) m = dedupByKeyAux key seen m := by
        intro m
        apply dedupByKeyAux_congr_seen
        intro a
        simp only [List.mem_cons]
        constructor
        · rintro (rfl | ha)
          · exact hx
          · exact ha
        · exact Or.inr
      rw [← hcong l2, ← hcong l]
      exact ih
    · rw [if_neg hx, if_neg hx]
      exact congrArg (List.cons x) ih
  | dup seen x l l2 hx hd ih =>
    rw [dedupByKeyAux, if_pos hx]
    exact ih

/-- With nothing seen yet, DupExt leaves first-occurrence deduplication
unchanged: the deduplicated record list of the extended fetch equals that of
the original fetch. -/
theorem dupExt_dedup {α κ : Type} [DecidableEq κ] (key : α → κ)
    (l l2 : List α) (h : DupExt key [] l l2) :
    dedupByKey key l2 = dedupByKey key l :=
  dupExt_dedupByKeyAux key [] l l2 h

/-- On a newest-first list (creation times non-increasing), the record kept
by first-occurrence deduplication is maximal in creation time among the
records sharing its context. -/
theorem dedupByKeyAux_keeps_newest_status :
    ∀ (l : List Status) (seen : List String),
      l.Pairwise (fun a b => b.created_at ≤ a.created_at) →
      ∀ s ∈ dedupByKeyAux (fun st => st.context) seen l, s ∈ l ∧
        ∀ t ∈ l, t.context = s.context → t.created_at ≤ s.created_at := by
  intro l
  induction l with
  | nil => intro seen _ s hs; simp [dedupByKeyAux] at hs
  | cons x rest ih =>
    intro seen hp s hs
    have hpx := List.pairwise_cons.mp hp
    rw [dedupByKeyAux] at hs
    by_cases hx : x.context ∈ seen
    · rw [if_pos hx] at hs
      obtain ⟨hmem, hmax⟩ := ih seen hpx.2 s hs
      have hns := key_not_seen_of_mem_dedupByKeyAux (fun st : Status => st.context)
        rest seen s hs
      refine ⟨List.mem_cons_of_mem _ hmem, ?_⟩
      intro t ht hctx
      rcases List.mem_cons.mp ht with htx | ht2
      · have hmemseen : s.context ∈ seen := by
          rw [← hctx, htx]
          exact hx
        exact absurd hmemseen hns
      · exact hmax t ht2 hctx
    · rw [if_neg hx] at hs
      rcases List.mem_cons.mp hs with hsx | hs2
      · subst hsx
        refine ⟨List.mem_cons_self _ _, ?_⟩
        intro t ht _
        rcases List.mem_cons.mp ht with htx | ht2
        · subst htx; exact le_refl _
        · exact hpx.1 t ht2
      · obtain ⟨hmem, hmax⟩ := ih (x.context :: seen) hpx.2 s hs2
        have hns := key_not_seen_of_mem_dedupByKeyAux (fun st : Status => st.context)
          rest (x.context :: seen) s hs2
        have hsx : ¬x.context = s.context := fun hc =>
          hns (hc ▸ List.mem_cons_self _ _)
        refine ⟨List.mem_cons_of_mem _ hmem, ?_⟩
        intro t ht hctx
        rcases List.mem_cons.mp ht with htx | ht2
        · exact absurd (htx ▸ hctx) (fun hh => hsx hh)
        · exact hmax t ht2 hctx

/-- The newest-kept property transported to dedupByKey itself. -/
theorem dedupByKey_keeps_newest_status :
    ∀ l : List Status,
      l.Pairwise (fun a b => b.created_at ≤ a.created_at) →
      ∀ s ∈ dedupByKey (fun st => st.context) l, s ∈ l ∧
        ∀ t ∈ l, t.context = s.context → t.created_at ≤ s.created_at :=
  fun l hp s hs => dedupByKeyAux_keeps_newest_status l [] hp s hs

/-- C2: classification in CheckBuildFailed depends only on the most recently
created record per logical job identity.  Conjunct 1: on a newest-first
status list the record kept per context is the most recently created one.
Conjunct 2: extending the fetched status list with duplicate records whose
context already occurred earlier (the older records, in newest-first API
order) leaves the whole status sub-check unchanged.  Conjunct 3: likewise
for GitHub Actions runs with workflow id as the key, among the records that
survive the head-SHA filter applied before deduplication. -/
theorem cbf_classification_dedups_by_identity :
    (∀ l : List Status,
      l.Pairwise (fun a b => b.created_at ≤ a.created_at) →
      ∀ s ∈ dedupByKey (fun st => st.context) l, s ∈ l ∧
        ∀ t ∈ l, t.context = s.context → t.created_at ≤ s.created_at) ∧
    (∀ (l l2 : List Status), DupExt (fun st => st.context) [] l l2 →
      ∀ (parseUrl : String → Option Url) (cfg : String → Option StatusFailuresConfig)
        (runners : List (List Url → Except Error WorkflowStatus)) (m : FailureMap),
        check_statuses parseUrl cfg runners l2 m = check_statuses parseUrl cfg runners l m) ∧
    (∀ (pull_request : PullRequest) (l l2 : List WorkflowRun),
      DupExt (fun r => r.workflow_id) []
        (l.filter fun r => decide (r.head_sha = pull_request.head.sha))
        (l2.filter fun r => decide (r.head_sha = pull_request.head.sha)) →
      ∀ rerun : Nat → Except ClientError Unit,
        check_actions rerun pull_request l2 = check_actions rerun pull_request l) := by
  refine ⟨dedupByKey_keeps_newest_status, ?_, ?_⟩
  · intro l l2 h parseUrl cfg runners m
    unfold check_statuses fetch_status_summaries
    rw [dupExt_dedup _ _ _ h]
  · intro pull_request l l2 h rerun
    unfold check_actions fetch_action_runs
    rw [dupExt_dedup _ _ _ h]

/-- Witness for C2 at concrete inputs: a single newest failing status for
context ci, extended by an older duplicate record for the same context,
classifies identically; likewise one failing workflow run extended by an
older duplicate run of the same workflow id. -/
theorem cbf_classification_dedups_by_identity_witness :
    check_statuses (fun s => some ⟨s⟩) (fun _ => none) []
        [⟨"http://a", .failure, 10, "ci"⟩, ⟨"http://b", .success, 5, "ci"⟩] [] =
      check_statuses (fun s => some ⟨s⟩) (fun _ => none) []
        [⟨"http://a", .failure, 10, "ci"⟩] [] ∧
    check_actions (fun _ => .ok ()) demoPrBlocked
        [⟨1, 42, "wf", "mysha", .completed, some .failure⟩,
         ⟨0, 42, "wf", "mysha", .completed, some .success⟩] =
      check_actions (fun _ => .ok ()) demoPrBlocked
        [⟨1, 42, "wf", "mysha", .completed, some .failure⟩] := by
  constructor
  · exact cbf_classification_dedups_by_identity.2.1
      [⟨"http://a", .failure, 10, "ci"⟩]
      [⟨"http://a", .failure, 10, "ci"⟩, ⟨"http://b", .success, 5, "ci"⟩]
      (.keep _ _ _ _ (.dup _ _ _ _ (by simp) (.nil _)))
      (fun s => some ⟨s⟩) (fun _ => none) [] []
  · have h1 : ([⟨1, 42, "wf", "mysha", .completed, some .failure⟩] :
        List WorkflowRun).filter
          (fun r => decide (r.head_sha = demoPrBlocked.head.sha)) =
        [⟨1, 42, "wf", "mysha", .completed, some .failure⟩] := by decide
    have h2 : ([⟨1, 42, "wf", "mysha", .completed, some .failure⟩,
        ⟨0, 42, "wf", "mysha", .completed, some .success⟩] :
        List WorkflowRun).filter
          (fun r => decide (r.head_sha = demoPrBlocked.head.sha)) =
        [⟨1, 42, "wf", "mysha", .completed, some .failure⟩,
         ⟨0, 42, "wf", "mysha", .completed, some .success⟩] := by decide
    refine cbf_classification_dedups_by_identity.2.2 demoPrBlocked
      [⟨1, 42, "wf", "mysha", .completed, some .failure⟩]
      [⟨1, 42, "wf", "mysha", .completed, some .failure⟩,
       ⟨0, 42, "wf", "mysha", .completed, some .success⟩]
      ?_ (fun _ => .ok ())
    rw [h1, h2]
    exact .keep _ _ _ _ (.dup _ _ _ _ (by simp) (.nil _))

/-! ## Theorems: C3 -/

/-- C3: with max_failures = 3 configured for a status that fails with the
same head SHA and no pending statuses on consecutive polls, CheckBuildFailed
waits on polls 1 and 2 (counters 1 and 2) and fails with an unrecoverable
Generic error exactly on the 3rd poll; on that poll no workflow-runner
invocation and no rerun request happen, and in general a max-failures
threshold error in process_failed_statuses always precedes (and so
suppresses) every runner invocation. -/
theorem cbf_max_failures_fails_on_third_poll (n sha url : String) :
    (∀ (cfg : String → Option StatusFailuresConfig)
        (runners : List (List Url → Except Error WorkflowStatus))
        (statuses : List StatusSummary) (m m2 : FailureMap) (e : Error),
      check_max_failures cfg statuses m = (m2, some e) →
      process_failed_statuses cfg runners statuses m = (m2, 0, some e)) ∧
    (c3Poll n sha url 1).1 = .ok .waiting ∧
    (c3Poll n sha url 1).2.1.status_failures = [(n, 1)] ∧
    (c3Poll n sha url 2).1 = .ok .waiting ∧
    (c3Poll n sha url 2).2.1.status_failures = [(n, 2)] ∧
    (∃ msg, (c3Poll n sha url 3).1 = .error (.generic msg)) ∧
    (c3Poll n sha url 3).2.2.runnerInvocations = 0 ∧
    (c3Poll n sha url 3).2.2.rerunCalls = [] := by
  refine ⟨?_, ?_, ?_, ?_, ?_,
    ⟨"status check \x27" ++ n ++ "\x27 reached " ++ toString 3 ++ " failures", ?_⟩,
    ?_, ?_⟩
  · intro cfg runners statuses m m2 e h
    unfold process_failed_statuses
    rw [h]
  all_goals
  simp [c3Poll, c3State, cbf_execute, cbf_execute_core, observe_head_sha,
    check_statuses, fetch_status_summaries, dedupByKey, dedupByKeyAux,
    summarize_statuses, parse_status_url, process_failed_statuses,
    check_max_failures, run_workflow_runners, FailureMap.lookup,
    FailureMap.insert, check_actions, fetch_action_runs,
    process_failed_actions, c3Env, c3Cfg, c3Pr, demoPrBlocked]

/-- Witness for C3: the poll sequence instantiated at concrete strings, and
the threshold-before-rerun conjunct applied to a concrete failing summary
with a counter already at 2 out of 3. -/
theorem cbf_max_failures_fails_on_third_poll_witness :
    (c3Poll "ci" "mysha" "http://job" 2).1 = .ok .waiting ∧
    (∃ msg, (c3Poll "ci" "mysha" "http://job" 3).1 = .error (.generic msg)) ∧
    process_failed_statuses (c3Cfg "ci") [fun _ => .ok .triggered]
        [⟨⟨"http://job"⟩, "ci"⟩] [("ci", 2)] =
      ([("ci", 3)], 0,
        some (.generic ("status check \x27ci\x27 reached " ++ toString 3 ++ " failures"))) := by
  refine ⟨(cbf_max_failures_fails_on_third_poll "ci" "mysha" "http://job").2.2.2.1,
    (cbf_max_failures_fails_on_third_poll "ci" "mysha" "http://job").2.2.2.2.2.1,
    (cbf_max_failures_fails_on_third_poll "ci" "mysha" "http://job").1
      (c3Cfg "ci") [fun _ => .ok .triggered] [⟨⟨"http://job"⟩, "ci"⟩]
      [("ci", 2)] [("ci", 3)] _ ?_⟩
  decide

/-! ## Theorems: C4 -/

/-- C4: the failure counters of CheckBuildFailed reset to the empty map the
moment a snapshot whose head SHA differs from the previously observed one is
observed (conjunct 1), are preserved exactly when the head SHA is unchanged
(conjunct 2), and execute performs this observation first, before the
sub-checks, on every snapshot it processes (conjunct 3; snapshots with a
non-Blocked mergeable state are never observed, per the early no-op
return). -/
theorem cbf_counters_reset_on_head_sha_change :
    (∀ (st : CbfState) (sha h : String), st.last_head_hash = some h → h ≠ sha →
      observe_head_sha st sha = ⟨some sha, []⟩) ∧
    (∀ (st : CbfState) (sha : String), st.last_head_hash = some sha →
      observe_head_sha st sha = st) ∧
    (∀ (env : CbfEnv) (cfg : String → Option StatusFailuresConfig)
        (pull_request : PullRequest) (st : CbfState),
      pull_request.mergeable_state = .blocked →
      cbf_execute env cfg pull_request st =
        cbf_execute_core env cfg pull_request
          (observe_head_sha st pull_request.head.sha)) := by
  refine ⟨?_, ?_, ?_⟩
  · intro st sha h hlast hne
    simp [observe_head_sha, hlast, hne]
  · intro st sha hlast
    simp [observe_head_sha, hlast]
  · intro env cfg pull_request st h
    simp [cbf_execute, h]

/-- Witness for C4: counters {a: 2} observed with head SHA S1 reset to {}
the moment head SHA S2 is observed, are kept when S1 is observed again, and
a blocked execute routes through the observation. -/
theorem cbf_counters_reset_on_head_sha_change_witness :
    observe_head_sha ⟨some "S1", [("a", 2)]⟩ "S2" = ⟨some "S2", []⟩ ∧
    observe_head_sha ⟨some "S1", [("a", 2)]⟩ "S1" = ⟨some "S1", [("a", 2)]⟩ ∧
    cbf_execute (c3Env "ci" "http://job") (c3Cfg "ci") demoPrBlocked
        ⟨some "S1", [("a", 2)]⟩ =
      cbf_execute_core (c3Env "ci" "http://job") (c3Cfg "ci") demoPrBlocked
        (observe_head_sha ⟨some "S1", [("a", 2)]⟩ demoPrBlocked.head.sha) :=
  ⟨cbf_counters_reset_on_head_sha_change.1 ⟨some "S1", [("a", 2)]⟩ "S2" "S1"
      rfl (by decide),
    cbf_counters_reset_on_head_sha_change.2.1 ⟨some "S1", [("a", 2)]⟩ "S1" rfl,
    cbf_counters_reset_on_head_sha_change.2.2 (c3Env "ci" "http://job")
      (c3Cfg "ci") demoPrBlocked ⟨some "S1", [("a", 2)]⟩ rfl⟩

/-! ## Theorems: C7 -/

/-- Whenever the snapshot is Blocked, CheckBuildFailed::execute issues
exactly one pull_request_statuses fetch: it is never a no-op there. -/
theorem cbf_statusFetches_when_blocked (env : CbfEnv)
    (cfg : String → Option StatusFailuresConfig) (pull_request : PullRequest)
    (st : CbfState) (h : pull_request.mergeable_state = .blocked) :
    (cbf_execute env cfg pull_request st).2.2.statusFetches = 1 := by
  unfold cbf_execute
  rw [h]
  simp only [ne_eq, not_true_eq_false, if_false]
  unfold cbf_execute_core
  rcases env.statuses with e | sl
  · rfl
  · rcases hcs : check_statuses env.parseUrl cfg env.runners sl
        (observe_head_sha st pull_request.head.sha).status_failures with ⟨sres, m2, inv⟩
    rcases sres with e | sr
    · simp [hcs]
    · rcases env.actionRuns with e | rl
      · simp [hcs]
      · rcases hca : check_actions env.rerun pull_request rl with ⟨ares, reruns⟩
        rcases ares with e | ar
        · simp [hcs, hca]
        · simp only [hcs, hca]
          split <;> rfl

/-- Counterexample to C7 as stated: for the Unstable mergeable state, which
lies in the blocked/unstable class the claim names, CheckBuildFailed is
nevertheless a complete no-op (Passed, state untouched, no request
issued). -/
theorem cbf_noop_on_unstable_counterexample :
    cbf_execute (c3Env "ci" "http://job") (c3Cfg "ci")
        { demoPrBlocked with mergeable_state := .unstable }
        ⟨some "Z", [("ci", 1)]⟩ =
      (.ok .passed, ⟨some "Z", [("ci", 1)]⟩, CbfTrace.zero) ∧
    inBlockedUnstableClass
      ({ demoPrBlocked with mergeable_state := .unstable } : PullRequest).mergeable_state
        = true := by
  constructor
  · rfl
  · decide

/-- C7 amended: CheckBuildFailed is a no-op returning Passed with no request
and no state change if and only if the mergeable state is not Blocked (the
code tests Blocked only, so the Unstable member of the blocked/unstable
class also takes the no-op path); when the state is Blocked it evaluates its
sub-checks, issuing the status fetch. -/
theorem cbf_noop_iff_not_blocked (env : CbfEnv)
    (cfg : String → Option StatusFailuresConfig) (pull_request : PullRequest)
    (st : CbfState) :
    (cbf_execute env cfg pull_request st = (.ok .passed, st, CbfTrace.zero) ↔
      pull_request.mergeable_state ≠ .blocked) ∧
    (pull_request.mergeable_state = .blocked →
      (cbf_execute env cfg pull_request st).2.2.statusFetches = 1) := by
  refine ⟨⟨?_, ?_⟩, cbf_statusFetches_when_blocked env cfg pull_request st⟩
  · intro heq
    intro hb
    have h1 := cbf_statusFetches_when_blocked env cfg pull_request st hb
    rw [heq] at h1
    simp [CbfTrace.zero] at h1
  · intro hnb
    simp [cbf_execute, hnb]

/-- Witness for C7 amended: at a Blocked snapshot the status fetch happens;
at a Clean snapshot the step is the exact no-op. -/
theorem cbf_noop_iff_not_blocked_witness :
    (cbf_execute (c3Env "ci" "http://job") (c3Cfg "ci") demoPrBlocked
        ⟨none, []⟩).2.2.statusFetches = 1 ∧
    cbf_execute (c3Env "ci" "http://job") (c3Cfg "ci")
        { demoPrBlocked with mergeable_state := .clean } ⟨none, []⟩ =
      (.ok .passed, ⟨none, []⟩, CbfTrace.zero) :=
  ⟨(cbf_noop_iff_not_blocked (c3Env "ci" "http://job") (c3Cfg "ci")
      demoPrBlocked ⟨none, []⟩).2 rfl,
    (cbf_noop_iff_not_blocked (c3Env "ci" "http://job") (c3Cfg "ci")
      { demoPrBlocked with mergeable_state := .clean } ⟨none, []⟩).1.mpr
      (by decide)⟩

/-! ## Theorems: C9 -/

/-- C9: whenever CheckBuildFailed evaluates its sub-checks (Blocked
snapshot) it never returns Passed: if both sub-checks pass it fails with the
blocked-for-unknown-reasons error, and every other non-error sub-check
combination yields Waiting. -/
theorem cbf_blocked_never_passes (env : CbfEnv)
    (cfg : String → Option StatusFailuresConfig) (pull_request : PullRequest)
    (st : CbfState) (hb : pull_request.mergeable_state = .blocked) :
    (cbf_execute env cfg pull_request st).1 ≠ .ok .passed ∧
    (∀ (sl : List Status) (s : StepStatus) (rl : List WorkflowRun) (a : StepStatus),
      env.statuses = .ok sl →
      (check_statuses env.parseUrl cfg env.runners sl
          (observe_head_sha st pull_request.head.sha).status_failures).1 = .ok s →
      env.actionRuns = .ok rl →
      (check_actions env.rerun pull_request rl).1 = .ok a →
      ((s = .passed ∧ a = .passed) →
        (cbf_execute env cfg pull_request st).1 =
          .error (.generic "pull request is blocked for unknown reasons")) ∧
      (¬(s = .passed ∧ a = .passed) →
        (cbf_execute env cfg pull_request st).1 = .ok .waiting)) := by
  have hcore : (cbf_execute env cfg pull_request st).1 ≠ .ok .passed := by
    unfold cbf_execute
    rw [hb]
    simp only [ne_eq, not_true_eq_false, if_false]
    unfold cbf_execute_core
    rcases env.statuses with e | sl
    · simp
    · rcases hcs : check_statuses env.parseUrl cfg env.runners sl
          (observe_head_sha st pull_request.head.sha).status_failures with ⟨sres, m2, inv⟩
      rcases sres with e | sr
      · simp [hcs]
      · rcases env.actionRuns with e | rl
        · simp [hcs]
        · rcases hca : check_actions env.rerun pull_request rl with ⟨ares, reruns⟩
          rcases ares with e | ar
          · simp [hcs, hca]
          · simp only [hcs, hca]
            split <;> simp
  refine ⟨hcore, ?_⟩
  intro sl s rl a hsl hs hrl ha
  unfold cbf_execute
  rw [hb]
  simp only [ne_eq, not_true_eq_false, if_false]
  unfold cbf_execute_core
  rw [hsl]
  rcases hcs : check_statuses env.parseUrl cfg env.runners sl
      (observe_head_sha st pull_request.head.sha).status_failures with ⟨sres, m2, inv⟩
  rw [hcs] at hs
  have hsres : sres = .ok s := hs
  subst hsres
  rcases hca : check_actions env.rerun pull_request rl with ⟨ares, reruns⟩
  rw [hca] at ha
  have hares : ares = .ok a := ha
  subst hares
  simp only [hcs, hrl, hca]
  constructor
  · intro hpp
    rw [if_pos ⟨by rw [hpp.1, hpp.2], hb⟩]
  · intro hnp
    rw [if_neg fun hc =>
      hnp ⟨congrArg Prod.fst hc.1, congrArg Prod.snd hc.1⟩]

/-- Witness for C9: in the max-failures scenario environment at a fresh
state the Blocked execute yields Waiting (sub-checks Waiting and Passed),
and with no statuses and no runs at all (both sub-checks Passed) it yields
the blocked-for-unknown-reasons error. -/
theorem cbf_blocked_never_passes_witness :
    (cbf_execute (c3Env "ci" "http://job") (c3Cfg "ci") demoPrBlocked
        ⟨none, []⟩).1 ≠ .ok .passed ∧
    (cbf_execute
        { statuses := .ok [], actionRuns := .ok [], rerun := fun _ => .ok ()
          runners := [], parseUrl := fun s => some ⟨s⟩ }
        (c3Cfg "ci") demoPrBlocked ⟨none, []⟩).1 =
      .error (.generic "pull request is blocked for unknown reasons") := by
  constructor
  · exact (cbf_blocked_never_passes (c3Env "ci" "http://job") (c3Cfg "ci")
      demoPrBlocked ⟨none, []⟩ rfl).1
  · exact ((cbf_blocked_never_passes
        { statuses := .ok [], actionRuns := .ok [], rerun := fun _ => .ok ()
          runners := [], parseUrl := fun s => some ⟨s⟩ }
        (c3Cfg "ci") demoPrBlocked ⟨none, []⟩ rfl).2 [] .passed [] .passed
        rfl (by decide) rfl (by decide)).1 ⟨rfl, rfl⟩

/-! ## Theorems: C5 -/

/-- If every step passes, the step loop reports none (no short-circuit) and
executes every step. -/
theorem run_director_steps_all_passed (ctx : Context)
    (steps : List (Context → Except Error DirectorStepStatus))
    (h : ∀ p ∈ steps, p ctx = .ok .passed) :
    run_director_steps ctx steps = (.ok none, steps.length) := by
  induction steps with
  | nil => rfl
  | cons p rest ih =>
    have hp := h p (List.mem_cons_self _ _)
    have hrest := ih fun q hq => h q (List.mem_cons_of_mem _ hq)
    simp [run_director_steps, hp, hrest]

/-- Conversely, the step loop reports none only when every step passed, and
then the count is the full pipeline length. -/
theorem all_passed_of_run_director_steps_none (ctx : Context) :
    ∀ (steps : List (Context → Except Error DirectorStepStatus)) (k : Nat),
      run_director_steps ctx steps = (.ok none, k) →
      (∀ p ∈ steps, p ctx = .ok .passed) ∧ k = steps.length := by
  intro steps
  induction steps with
  | nil =>
    intro k h
    simp only [run_director_steps] at h
    obtain ⟨-, hk⟩ := Prod.mk.injEq .. ▸ h
    exact ⟨by simp, hk.symm⟩
  | cons p rest ih =>
    intro k h
    rcases hp : p ctx with e | st
    · simp [run_director_steps, hp] at h
    · cases st with
      | cannotProceed reason => simp [run_director_steps, hp] at h
      | waiting => simp [run_director_steps, hp] at h
      | passed =>
        rcases hr : run_director_steps ctx rest with ⟨res, k0⟩
        simp only [run_director_steps, hp, hr] at h
        obtain ⟨hres, hk⟩ := Prod.mk.injEq .. ▸ h
        obtain ⟨hall, hlen⟩ := ih k0 (by rw [hr, hres])
        refine ⟨?_, ?_⟩
        · intro q hq
          rcases List.mem_cons.mp hq with hq1 | hq2
          · rw [hq1]; exact hp
          · exact hall q hq2
        · simp [← hk, hlen]

/-- A Waiting step after a passed prefix short-circuits the loop to Pending
after executing exactly the prefix and itself. -/
theorem run_director_steps_waiting (ctx : Context)
    (s : Context → Except Error DirectorStepStatus)
    (post : List (Context → Except Error DirectorStepStatus))
    (hs : s ctx = .ok .waiting) :
    ∀ pre : List (Context → Except Error DirectorStepStatus),
      (∀ p ∈ pre, p ctx = .ok .passed) →
      run_director_steps ctx (pre ++ s :: post) =
        (.ok (some .pending), pre.length + 1) := by
  intro pre
  induction pre with
  | nil => intro _; simp [run_director_steps, hs]
  | cons p rest ih =>
    intro h
    have hp := h p (List.mem_cons_self _ _)
    have hrest := ih fun q hq => h q (List.mem_cons_of_mem _ hq)
    simp [run_director_steps, hp, hrest]

/-- An erroring step after a passed prefix aborts the loop with that error
after executing exactly the prefix and itself. -/
theorem run_director_steps_error (ctx : Context)
    (s : Context → Except Error DirectorStepStatus)
    (post : List (Context → Except Error DirectorStepStatus)) (e : Error)
    (hs : s ctx = .error e) :
    ∀ pre : List (Context → Except Error DirectorStepStatus),
      (∀ p ∈ pre, p ctx = .ok .passed) →
      run_director_steps ctx (pre ++ s :: post) = (.error e, pre.length + 1) := by
  intro pre
  induction pre with
  | nil => intro _; simp [run_director_steps, hs]
  | cons p rest ih =>
    intro h
    have hp := h p (List.mem_cons_self _ _)
    have hrest := ih fun q hq => h q (List.mem_cons_of_mem _ hq)
    simp [run_director_steps, hp, hrest]

/-- C5: Director::run fetches the snapshot first (a fetch error propagates
with no step and no merger run); steps execute in declared order, the first
Waiting step returns Pending executing no later step and no merger, the
first step error propagates likewise; when every step passes the merger is
invoked exactly once, success returning Done and a merge error propagating;
and the merger is only ever invoked when the fetch succeeded and every step
passed. -/
theorem director_run_control_flow :
    (∀ (steps : List (Context → Except Error DirectorStepStatus))
        (merge : Context → Except Error Unit) (e : Error),
      director_run (.error e) steps merge = ⟨.error e, 0, 0⟩) ∧
    (∀ (ctx : Context) (pre post : List (Context → Except Error DirectorStepStatus))
        (s : Context → Except Error DirectorStepStatus)
        (merge : Context → Except Error Unit),
      (∀ p ∈ pre, p ctx = .ok .passed) → s ctx = .ok .waiting →
      director_run (.ok ctx) (pre ++ s :: post) merge =
        ⟨.ok .pending, pre.length + 1, 0⟩) ∧
    (∀ (ctx : Context) (pre post : List (Context → Except Error DirectorStepStatus))
        (s : Context → Except Error DirectorStepStatus)
        (merge : Context → Except Error Unit) (e : Error),
      (∀ p ∈ pre, p ctx = .ok .passed) → s ctx = .error e →
      director_run (.ok ctx) (pre ++ s :: post) merge =
        ⟨.error e, pre.length + 1, 0⟩) ∧
    (∀ (ctx : Context) (steps : List (Context → Except Error DirectorStepStatus))
        (merge : Context → Except Error Unit),
      (∀ p ∈ steps, p ctx = .ok .passed) →
      (merge ctx = .ok () →
        director_run (.ok ctx) steps merge = ⟨.ok .done, steps.length, 1⟩) ∧
      (∀ e, merge ctx = .error e →
        director_run (.ok ctx) steps merge = ⟨.error e, steps.length, 1⟩)) ∧
    (∀ (fetch : Except Error Context)
        (steps : List (Context → Except Error DirectorStepStatus))
        (merge : Context → Except Error Unit),
      (director_run fetch steps merge).mergerInvocations ≠ 0 →
      ∃ ctx, fetch = .ok ctx ∧ ∀ p ∈ steps, p ctx = .ok .passed) := by
  refine ⟨?_, ?_, ?_, ?_, ?_⟩
  · intro steps merge e
    rfl
  · intro ctx pre post s merge hpre hs
    simp [director_run, run_director_steps_waiting ctx s post hs pre hpre]
  · intro ctx pre post s merge e hpre hs
    simp [director_run, run_director_steps_error ctx s post e hs pre hpre]
  · intro ctx steps merge hall
    have hrun := run_director_steps_all_passed ctx steps hall
    constructor
    · intro hm
      simp [director_run, hrun, hm]
    · intro e hm
      simp [director_run, hrun, hm]
  · intro fetch steps merge hmi
    rcases fetch with e | ctx
    · exact absurd rfl hmi
    · refine ⟨ctx, rfl, ?_⟩
      rcases hr : run_director_steps ctx steps with ⟨res, k⟩
      rcases res with e | os
      · rw [director_run] at hmi
        simp [hr] at hmi
      · rcases os with _ | s
        · exact (all_passed_of_run_director_steps_none ctx steps k hr).1
        · rw [director_run] at hmi
          simp [hr] at hmi

/-- Witness for C5: a pipeline of one passed step, one waiting step and one
never-reached erroring step returns Pending after two steps with no merger
call; the same pipeline with the waiting step passing instead runs the
merger once and returns Done; and the merger-only-if conjunct applied to the
successful run recovers that all steps passed. -/
theorem director_run_control_flow_witness :
    director_run (.ok ⟨⟨"o", "r", 1⟩, demoPrBlocked⟩)
        [fun _ => .ok .passed, fun _ => .ok .waiting,
          fun _ => .error (.generic "boom")] (fun _ => .ok ()) =
      ⟨.ok .pending, 2, 0⟩ ∧
    director_run (.ok ⟨⟨"o", "r", 1⟩, demoPrBlocked⟩)
        [fun _ => .ok .passed, fun _ => .ok .passed] (fun _ => .ok ()) =
      ⟨.ok .done, 2, 1⟩ ∧
    (∀ p ∈ ([fun _ => .ok .passed, fun _ => .ok .passed] :
        List (Context → Except Error DirectorStepStatus)),
      p ⟨⟨"o", "r", 1⟩, demoPrBlocked⟩ = .ok .passed) := by
  refine ⟨?_, ?_, ?_⟩
  · exact director_run_control_flow.2.1 ⟨⟨"o", "r", 1⟩, demoPrBlocked⟩
      [fun _ => .ok .passed] [fun _ => .error (.generic "boom")]
      (fun _ => .ok .waiting) (fun _ => .ok ())
      (by intro p hp; simp at hp; subst hp; rfl) rfl
  · exact (director_run_control_flow.2.2.2.1 ⟨⟨"o", "r", 1⟩, demoPrBlocked⟩
      [fun _ => .ok .passed, fun _ => .ok .passed] (fun _ => .ok ())
      (by
        intro p hp
        simp at hp
        subst hp
        rfl)).1 rfl
  · obtain ⟨ctx, hctx, hall⟩ := director_run_control_flow.2.2.2.2
      (.ok ⟨⟨"o", "r", 1⟩, demoPrBlocked⟩)
      [fun _ => .ok .passed, fun _ => .ok .passed] (fun _ => .ok ())
      (by decide)
    obtain rfl : (⟨⟨"o", "r", 1⟩, demoPrBlocked⟩ : Context) = ctx :=
      Except.ok.inj hctx
    exact hall

/-! ## Theorems: C6 -/

/-- Exhausting the strategy list on method-not-allowed failures yields the
"No merge method allowed" error after attempting every strategy. -/
theorem merger_merge_exhausted (submit : MergeRequestBody → Except ClientError Unit)
    (pull_request : PullRequest) :
    ∀ ms : List MergeMethod,
      (∀ m ∈ ms, ∃ e, merge_with_method submit pull_request m = .error e ∧
        e.method_not_allowed = true) →
      merger_merge submit pull_request ms =
        (.error (.generic "No merge method allowed"), ms) := by
  intro ms
  induction ms with
  | nil => intro _; rfl
  | cons m rest ih =>
    intro h
    obtain ⟨e, he, hmna⟩ := h m (List.mem_cons_self _ _)
    have hrest := ih fun q hq => h q (List.mem_cons_of_mem _ hq)
    simp [merger_merge, he, hmna, hrest]

/-- C6: the merger strategy list is a duplicate-free permutation of the
three merge methods with the configured default first; for default squash
the order is [squash, merge, rebase]; in the strategy loop a
method-not-allowed failure falls through to the remaining strategies, a
successful submission stops with only the strategies so far attempted, any
other failure propagates immediately, and exhausting every strategy on
method-not-allowed yields the "No merge method allowed" error; in
particular with default squash, squash rejected as not allowed and merge
succeeding, the attempts are exactly [squash, merge] and rebase is never
attempted. -/
theorem merger_strategy_order_and_fallback :
    (∀ d : MergeMethod,
      (build_merge_methods d).Perm
          [MergeMethod.squash, MergeMethod.merge, MergeMethod.rebase] ∧
        (build_merge_methods d).head? = some d ∧ (build_merge_methods d).Nodup) ∧
    build_merge_methods .squash =
      [MergeMethod.squash, MergeMethod.merge, MergeMethod.rebase] ∧
    (∀ (submit : MergeRequestBody → Except ClientError Unit)
        (pull_request : PullRequest) (m : MergeMethod) (rest : List MergeMethod)
        (e : ClientError),
      merge_with_method submit pull_request m = .error e →
      e.method_not_allowed = true →
      merger_merge submit pull_request (m :: rest) =
        ((merger_merge submit pull_request rest).1,
          m :: (merger_merge submit pull_request rest).2)) ∧
    (∀ (submit : MergeRequestBody → Except ClientError Unit)
        (pull_request : PullRequest) (m : MergeMethod) (rest : List MergeMethod),
      merge_with_method submit pull_request m = .ok () →
      merger_merge submit pull_request (m :: rest) = (.ok (), [m])) ∧
    (∀ (submit : MergeRequestBody → Except ClientError Unit)
        (pull_request : PullRequest) (m : MergeMethod) (rest : List MergeMethod)
        (e : ClientError),
      merge_with_method submit pull_request m = .error e →
      e.method_not_allowed = false →
      merger_merge submit pull_request (m :: rest) = (.error (.client e), [m])) ∧
    (∀ (submit : MergeRequestBody → Except ClientError Unit)
        (pull_request : PullRequest) (ms : List MergeMethod),
      (∀ m ∈ ms, ∃ e, merge_with_method submit pull_request m = .error e ∧
        e.method_not_allowed = true) →
      merger_merge submit pull_request ms =
        (.error (.generic "No merge method allowed"), ms)) ∧
    (∀ (submit : MergeRequestBody → Except ClientError Unit)
        (pull_request : PullRequest) (e : ClientError),
      merge_with_method submit pull_request .squash = .error e →
      e.method_not_allowed = true →
      merge_with_method submit pull_request .merge = .ok () →
      default_merger_merge submit pull_request .squash = (.ok (), [.squash, .merge])) := by
  refine ⟨?_, rfl, ?_, ?_, ?_, merger_merge_exhausted, ?_⟩
  · intro d
    cases d <;> refine ⟨by decide, rfl, by decide⟩
  · intro submit pull_request m rest e he hmna
    rcases hrest : merger_merge submit pull_request rest with ⟨res, ms⟩
    simp [merger_merge, he, hmna, hrest]
  · intro submit pull_request m rest hok
    simp [merger_merge, hok]
  · intro submit pull_request m rest e he hmna
    simp [merger_merge, he, hmna]
  · intro submit pull_request e hsq hmna hm
    unfold default_merger_merge build_merge_methods
    simp only [listSwap]
    simp [merger_merge, hsq, hmna, hm, List.findIdx]

/-- Witness for C6: a concrete submit oracle that rejects squash as
method-not-allowed (HTTP 405) and accepts the merge method produces exactly
the [squash, merge] attempt sequence, and a concrete always-405 oracle
exhausts all three strategies. -/
theorem merger_strategy_order_and_fallback_witness :
    default_merger_merge
        (fun body => if body.merge_method = .squash then .error (.http 405) else .ok ())
        demoPrBlocked .squash = (.ok (), [.squash, .merge]) ∧
    merger_merge (fun _ => .error (.http 405)) demoPrBlocked
        [MergeMethod.squash, MergeMethod.merge, MergeMethod.rebase] =
      (.error (.generic "No merge method allowed"),
        [MergeMethod.squash, MergeMethod.merge, MergeMethod.rebase]) := by
  constructor
  · exact merger_strategy_order_and_fallback.2.2.2.2.2.2
      (fun body => if body.merge_method = .squash then .error (.http 405) else .ok ())
      demoPrBlocked (.http 405) rfl rfl rfl
  · exact merger_strategy_order_and_fallback.2.2.2.2.2.1
      (fun _ => .error (.http 405)) demoPrBlocked
      [MergeMethod.squash, MergeMethod.merge, MergeMethod.rebase]
      (by
        intro m hm
        exact ⟨.http 405, rfl, rfl⟩)

/-! ## Theorems: C8 -/

/-- Counterexample to C8 as stated: a conflict-classified failure (HTTP
409) of the update-branch request is in the conflict/unprocessable-entity
classification the claim names, yet CheckBehindMaster propagates it as an
error instead of returning Waiting. -/
theorem check_behind_master_conflict_counterexample :
    conflictOrUnprocessable (.http 409) = true ∧
    check_behind_master_execute (.error (.http 409))
        { demoPrBlocked with mergeable_state := .behind } =
      (.error (.client (.http 409)), 1) := by
  constructor
  · decide
  · rfl

/-- C8 amended: CheckBehindMaster passes with no update-branch request
whenever the mergeable state is not Behind; when Behind it issues exactly
one update-branch request and returns Waiting on success and on an
unprocessable-entity (HTTP 422) failure, while every other failure
(including conflict, HTTP 409) propagates as an error. -/
theorem check_behind_master_cases (updateResult : Except ClientError Unit)
    (pull_request : PullRequest) :
    (pull_request.mergeable_state ≠ .behind →
      check_behind_master_execute updateResult pull_request = (.ok .passed, 0)) ∧
    (pull_request.mergeable_state = .behind →
      (check_behind_master_execute updateResult pull_request).2 = 1 ∧
      (updateResult = .ok () →
        check_behind_master_execute updateResult pull_request = (.ok .waiting, 1)) ∧
      (∀ e, updateResult = .error e → e.unprocessable_entity = true →
        check_behind_master_execute updateResult pull_request = (.ok .waiting, 1)) ∧
      (∀ e, updateResult = .error e → e.unprocessable_entity = false →
        check_behind_master_execute updateResult pull_request =
          (.error (.client e), 1))) := by
  constructor
  · intro h
    simp [check_behind_master_execute, h]
  · intro h
    refine ⟨?_, ?_, ?_, ?_⟩
    · rcases updateResult with e | u
      · by_cases he : e.unprocessable_entity = true <;>
          simp [check_behind_master_execute, h, he]
      · simp [check_behind_master_execute, h]
    · intro hok
      simp [check_behind_master_execute, h, hok]
    · intro e he hue
      simp [check_behind_master_execute, h, he, hue]
    · intro e he hue
      simp [check_behind_master_execute, h, he, hue]

/-- Witness for C8 amended: concrete behind pull request with a successful
update, a 422 failure and a 409 failure, plus a clean pull request with no
request issued. -/
theorem check_behind_master_cases_witness :
    check_behind_master_execute (.ok ())
        { demoPrBlocked with mergeable_state := .behind } = (.ok .waiting, 1) ∧
    check_behind_master_execute (.error (.http 422))
        { demoPrBlocked with mergeable_state := .behind } = (.ok .waiting, 1) ∧
    check_behind_master_execute (.error (.http 409))
        { demoPrBlocked with mergeable_state := .behind } =
      (.error (.client (.http 409)), 1) ∧
    check_behind_master_execute (.ok ())
        { demoPrBlocked with mergeable_state := .clean } = (.ok .passed, 0) :=
  ⟨((check_behind_master_cases (.ok ())
      { demoPrBlocked with mergeable_state := .behind }).2 rfl).2.1 rfl,
    ((check_behind_master_cases (.error (.http 422))
      { demoPrBlocked with mergeable_state := .behind }).2 rfl).2.2.1
      (.http 422) rfl (by decide),
    ((check_behind_master_cases (.error (.http 409))
      { demoPrBlocked with mergeable_state := .behind }).2 rfl).2.2.2
      (.http 409) rfl (by decide),
    (check_behind_master_cases (.ok ())
      { demoPrBlocked with mergeable_state := .clean }).1 (by decide)⟩

/-! ## Theorems: C10 -/

/-- If any status in the list under summarisation has an unparsable target
URL, the summary construction fails with an error. -/
theorem summarize_statuses_error_of_bad_url (parseUrl : String → Option Url) :
    ∀ l : List Status, (∃ s ∈ l, parseUrl s.target_url = none) →
      ∃ e, summarize_statuses parseUrl l = .error e := by
  intro l
  induction l with
  | nil => rintro ⟨s, hs, -⟩; simp at hs
  | cons st rest ih =>
    rintro ⟨s, hs, hbad⟩
    rcases hp : parseUrl st.target_url with _ | u
    · exact ⟨.generic ("invalid status target URL: " ++ st.target_url),
        by simp [summarize_statuses, parse_status_url, hp]⟩
    · rcases List.mem_cons.mp hs with hsx | hs2
      · rw [hsx] at hbad
        rw [hbad] at hp
        exact absurd hp (by simp)
      · obtain ⟨e, he⟩ := ih ⟨s, hs2, hbad⟩
        exact ⟨e, by simp [summarize_statuses, parse_status_url, hp, he]⟩

/-- C10: if any deduplicated external status record, regardless of its
state (success included), carries a target URL the parser rejects, the
status sub-check of CheckBuildFailed aborts with an error, leaving the
failure counters untouched and invoking no workflow runner — it never
returns Passed or Waiting. -/
theorem check_statuses_errors_on_bad_url (parseUrl : String → Option Url)
    (cfg : String → Option StatusFailuresConfig)
    (runners : List (List Url → Except Error WorkflowStatus))
    (statuses : List Status) (m : FailureMap)
    (hbad : ∃ s ∈ dedupByKey (fun st => st.context) statuses,
      parseUrl s.target_url = none) :
    ∃ e, check_statuses parseUrl cfg runners statuses m = (.error e, m, 0) := by
  obtain ⟨e, he⟩ := summarize_statuses_error_of_bad_url parseUrl
    (dedupByKey (fun st => st.context) statuses) hbad
  refine ⟨e, ?_⟩
  unfold check_statuses fetch_status_summaries
  rw [he]

/-- Witness for C10: a single success-state status whose target URL the
parser rejects makes the status sub-check fail even though nothing is
pending or failed. -/
theorem check_statuses_errors_on_bad_url_witness :
    ∃ e, check_statuses (fun _ => none) (fun _ => none) []
        [⟨"http://x", .success, 0, "ctx"⟩] [] = (.error e, [], 0) :=
  check_statuses_errors_on_bad_url (fun _ => none) (fun _ => none) []
    [⟨"http://x", .success, 0, "ctx"⟩] []
    ⟨⟨"http://x", .success, 0, "ctx"⟩, by decide, rfl⟩

end Mergebro
